import Mathlib

/-!
Verification development for the article-to-PDF scraper
(`webpage_scraper2.py`).  The Python source is shallowly embedded:

* Python strings are Lean `String`s (lists of characters); `str.strip()`,
  `str.split()`, `str.lower()`, `str.upper()` are modelled by executable
  functions below using `Char.isWhitespace` / `Char.toLower` /
  `Char.toUpper` as the character-level primitives.
* Library calls whose internals live outside the repository
  (`urllib.parse.urljoin`, `urlparse(url).netloc`, reportlab's
  `stringWidth`, the network, Playwright, PIL decoding, BeautifulSoup
  parsing) enter the model as explicit parameters: a function argument or
  an `Option`-valued outcome standing for the call's result.
* Money quantities of the PDF layout (points) are rationals, so the
  layout arithmetic is exact.
-/

/-! ## Python string primitives -/

/-- Left trim: drop leading whitespace (the leading half of `str.strip()`). -/
def ltrimL (l : List Char) : List Char := l.dropWhile Char.isWhitespace

/-- Right trim: drop trailing whitespace, by structural recursion. -/
def rtrimL : List Char → List Char
  | [] => []
  | c :: cs =>
    match rtrimL cs with
    | [] => if c.isWhitespace then [] else [c]
    | r => c :: r

/-- Python `str.strip()` on a character list. -/
def pyStripL (l : List Char) : List Char := rtrimL (ltrimL l)

/-- Python `str.strip()`. -/
def pyStripS (s : String) : String := ⟨pyStripL s.data⟩

/-- Python `str.lower()` (ASCII model). -/
def lowerS (s : String) : String := ⟨s.data.map Char.toLower⟩

/-- Python `str.upper()` (ASCII model). -/
def upperS (s : String) : String := ⟨s.data.map Char.toUpper⟩

/-- Is `n` a prefix of `l`? (Boolean, executable.) -/
def isPrefixL : List Char → List Char → Bool
  | [], _ => true
  | _ :: _, [] => false
  | a :: as, b :: bs => a == b && isPrefixL as bs

/-- Is `n` an infix (contiguous substring) of `l`?  Models Python's
`needle in haystack`. -/
def isInfixL (n : List Char) : List Char → Bool
  | [] => isPrefixL n []
  | c :: ls => isPrefixL n (c :: ls) || isInfixL n ls

/-- Python `needle in haystack` on strings. -/
def containsS (haystack needle : String) : Bool := isInfixL needle.data haystack.data

/-- Accumulator worker for Python `str.split()` (split on whitespace runs,
dropping empty pieces).  `acc` holds the current word reversed. -/
def pySplitAcc : List Char → List Char → List (List Char)
  | [], acc => if acc = [] then [] else [acc.reverse]
  | c :: cs, acc =>
    if c.isWhitespace then
      if acc = [] then pySplitAcc cs []
      else acc.reverse :: pySplitAcc cs []
    else pySplitAcc cs (c :: acc)

/-- Python `str.split()` (no separator argument) on a character list. -/
def pySplitL (l : List Char) : List (List Char) := pySplitAcc l []

/-- Python `str.split()` on strings. -/
def pySplitS (s : String) : List String := (pySplitL s.data).map String.mk

/-! ## Page Fetcher (`fetch_html`, src lines 55–97)

The static HTTP response and the Playwright outcome are modelled as
`Option (String × String)` parameters: `none` is "the call raised / the
capability is unavailable"; `some (text, url)` is a successful result.
`domain` stands for `urlparse(url).netloc.lower()`, computed by the
standard library from the URL. -/

def js_heavy_sites : List String :=
  ["tesla.com", "twitter.com", "instagram.com", "facebook.com", "youtube.com"]

/-- The `need_render` decision of `fetch_html` (src lines 66–76).
`text = none` models the static fetch having raised. -/
def need_render (text : Option String) (domain : String) : Bool :=
  let b1 : Bool := decide (text = none) || decide ((pyStripL (text.getD "").data).length < 800)
  let b2 : Bool :=
    if b1 then true
    else containsS (lowerS (text.getD "")) "<noscript" ||
         containsS (lowerS (text.getD "")) "javascript required"
  b2 || js_heavy_sites.any (fun d => containsS domain d)

/-- `fetch_html` (src lines 55–97).  `staticResp` is the outcome of
`session.get` (`none` = exception, incl. non-2xx via `raise_for_status`);
`pwResult` is the outcome of the Playwright block (`none` = import error,
launch failure, or navigation exception); `tryPw` is
`try_playwright_if_needed`. -/
def fetch_html (url domain : String) (staticResp pwResult : Option (String × String))
    (tryPw : Bool) : String × String :=
  let text : Option String := staticResp.map Prod.fst
  let final_url : String :=
    match staticResp with
    | some (_, u) => u
    | none => url
  let nr := need_render text domain
  let fallback : Option (String × String) :=
    if nr && tryPw then
      match pwResult with
      | some (rendered, fin) =>
        if rendered ≠ "" ∧ 200 < (pyStripL rendered.data).length then some (rendered, fin)
        else none
      | none => none
    else none
  match fallback with
  | some r => r
  | none => (text.getD "", if final_url = "" then url else final_url)

/-! ## Data model (`extract_more_elements`, src lines 102–209)

BeautifulSoup objects are modelled structurally.  An `Elem` is a DOM
element as seen by the node-stream loop: its tag name, its
`get_text(strip=True)` input text (the model applies `pyStripS` at use
sites, so any raw text may be stored), its attribute list, and the text
of a `<figcaption>` found in its parent, when one exists. -/

structure Elem where
  name : String
  text : String
  attrs : List (String × String)
  figcapParent : Option String
deriving DecidableEq

/-- A parsed document, as consulted by `extract_more_elements`.
`metaName k` / `metaProp k` model `soup.find("meta", {"name": k})` /
`soup.find("meta", {"property": k})`: `none` = no tag, `some none` = tag
without a `content` attribute, `some (some c)` = tag with `content=c`.
The `sel…` fields are the raw text of the first element matched by the
corresponding CSS selector (`none` = no match).  `candidates` holds, for
every `div`/`section`, its visible text and its descendant elements;
`bodyEls` is the descendant list of `soup.body or soup`. -/
structure Doc where
  titleTag : Option (Option String)
  metaName : String → Option (Option String)
  metaProp : String → Option (Option String)
  selRelAuthor : Option String
  selAuthorClass : Option String
  selByline : Option String
  selItempropAuthor : Option String
  timeTag : Option (Option String × String)
  imgs : List Elem
  articleOrMain : Option (List Elem)
  candidates : List (String × List Elem)
  bodyEls : List Elem

/-- A content node, `("heading", text, tagname)` / `("paragraph", text, None)`
/ `("image", absoluteURL, caption)` in the source. -/
inductive Node where
  | heading (text : String) (tag : String)
  | paragraph (text : String)
  | image (src : String) (caption : String)
deriving DecidableEq

/-- The `out` dict built by `extract_more_elements`. -/
structure Extracted where
  title : String
  author : String
  date : String
  tags : String
  lead_image : String
  nodes : List Node
deriving DecidableEq

/-- Attribute lookup, `el.get(k)`. -/
def getAttr (e : Elem) (k : String) : Option String :=
  (e.attrs.find? (fun p => p.1 == k)).map Prod.snd

/-- Python `a or b` on optional strings: `None` and `""` are falsy. -/
def pyOr (a b : Option String) : Option String :=
  match a with
  | some s => if s = "" then b else some s
  | none => b

/-- `el.get("src") or el.get("data-src") or el.get("data-original")`. -/
def srcOf (e : Elem) : Option String :=
  pyOr (getAttr e "src") (pyOr (getAttr e "data-src") (getAttr e "data-original"))

/-- `soup.find("meta", {"name": k}) or soup.find("meta", {"property": k})`. -/
def metaFind (d : Doc) (k : String) : Option (Option String) :=
  match d.metaName k with
  | some mc => some mc
  | none => d.metaProp k

/-- The `for key in (…): tag = find(…); if tag and tag.get("content"):
value = content.strip(); break` loop shared by author/date extraction. -/
def metaContentLoop (d : Doc) : List String → Option String
  | [] => none
  | k :: ks =>
    match metaFind d k with
    | some (some c) => if c ≠ "" then some (pyStripS c) else metaContentLoop d ks
    | _ => metaContentLoop d ks

/-- `soup.select_one('[rel=author]') or … or soup.select_one('[itemprop=author]')`
(src line 114); the value is the matched element's raw text. -/
def cssAuthorSel (d : Doc) : Option String :=
  match d.selRelAuthor with
  | some s => some s
  | none =>
    match d.selAuthorClass with
    | some s => some s
    | none =>
      match d.selByline with
      | some s => some s
      | none => d.selItempropAuthor

/-- Author resolution (src lines 108–117). -/
def extractAuthor (d : Doc) : String :=
  let a0 := metaContentLoop d ["author", "article:author", "og:article:author", "byline"]
  let a1 :=
    if a0 = none ∨ a0 = some "" then
      match cssAuthorSel d with
      | some raw => some (pyStripS raw)
      | none => a0
    else a0
  a1.getD ""

/-- Date resolution (src lines 120–131). -/
def extractDate (d : Doc) : String :=
  let d0 := metaContentLoop d ["article:published_time", "pubdate", "publishdate", "date"]
  let d1 :=
    if d0 = none ∨ d0 = some "" then
      match d.timeTag with
      | some (some dt, txt) => if dt ≠ "" then some (pyStripS dt) else some (pyStripS txt)
      | some (none, txt) => some (pyStripS txt)
      | none => d0
    else d0
  d1.getD ""

/-- Keywords resolution (src lines 134–138): only the `name` attribute is
consulted. -/
def extractTags (d : Doc) : String :=
  match d.metaName "keywords" with
  | some (some c) => if c ≠ "" then pyStripS c else ""
  | _ => ""

/-- First image among the first 30 with a truthy source attribute
(src lines 146–154). -/
def firstImgSrc (base : String) (uj : String → String → String) : List Elem → Option String
  | [] => none
  | e :: es =>
    match srcOf e with
    | some s => if s = "" then firstImgSrc base uj es else some (uj base s)
    | none => firstImgSrc base uj es

/-- Lead-image resolution (src lines 141–155); `uj` models
`urllib.parse.urljoin`. -/
def extractLead (d : Doc) (base : String) (uj : String → String → String) : String :=
  let og :=
    match d.metaProp "og:image" with
    | some mc => some mc
    | none => d.metaName "og:image"
  match og with
  | some (some c) =>
    if c ≠ "" then uj base c
    else (firstImgSrc base uj (d.imgs.take 30)).getD ""
  | _ => (firstImgSrc base uj (d.imgs.take 30)).getD ""

/-- Density fallback (src lines 174–182): the `div`/`section` with maximal
visible text length, first-encountered winning ties; seeded with
`soup.body or soup`. -/
def densityBest (init : List Elem) (cands : List (String × List Elem)) : List Elem :=
  (cands.foldl
    (fun acc c => if c.1.length > acc.2 then (c.2, c.1.length) else acc)
    (init, 0)).1

/-- Content selection (src lines 157–183).  `rd` is the readability
outcome: `none` = unavailable or raised, `some (els, shortTitle)` =
success with the summary's descendant elements and `doc.short_title()`. -/
def selectContent (d : Doc) (rd : Option (List Elem × String)) : List Elem :=
  match rd with
  | some (els, _) => els
  | none =>
    match d.articleOrMain with
    | some els => els
    | none => densityBest d.bodyEls d.candidates

/-- The node-stream loop (src lines 186–207). -/
def buildNodes (base : String) (uj : String → String → String) : List Elem → List Node
  | [] => []
  | el :: rest =>
    if el.name = "h1" ∨ el.name = "h2" ∨ el.name = "h3" ∨ el.name = "h4" then
      let t := pyStripS el.text
      (if t ≠ "" then [Node.heading t el.name] else []) ++ buildNodes base uj rest
    else if el.name = "p" ∨ el.name = "blockquote" ∨ el.name = "li" then
      let t := pyStripS el.text
      (if t ≠ "" ∧ 10 < t.length then [Node.paragraph t] else []) ++ buildNodes base uj rest
    else if el.name = "img" then
      (match srcOf el with
       | some s =>
         if s = "" then []
         else
           let absu := uj base s
           let cap0 := (el.figcapParent.map pyStripS).getD ""
           let caption := if cap0 = "" then (getAttr el "alt").getD "" else cap0
           [Node.image absu caption]
       | none => []) ++ buildNodes base uj rest
    else buildNodes base uj rest

/-- `extract_more_elements` (src lines 102–209). -/
def extract_more_elements (d : Doc) (base : String) (uj : String → String → String)
    (rd : Option (List Elem × String)) : Extracted :=
  let t0 :=
    match d.titleTag with
    | some (some s) => pyStripS s
    | _ => ""
  let title :=
    match rd with
    | some (_, tr) => if tr ≠ "" then tr else t0
    | none => t0
  { title := title
    author := extractAuthor d
    date := extractDate d
    tags := extractTags d
    lead_image := extractLead d base uj
    nodes := buildNodes base uj (selectContent d rd) }

/-- The parse of empty markup: a document with no title, no meta tags, no
selector matches, no images, and no elements. -/
def emptyDoc : Doc :=
  { titleTag := none
    metaName := fun _ => none
    metaProp := fun _ => none
    selRelAuthor := none
    selAuthorClass := none
    selByline := none
    selItempropAuthor := none
    timeTag := none
    imgs := []
    articleOrMain := none
    candidates := []
    bodyEls := [] }

/-! ## Plain-Text Composer (`ScraperGUI._worker`, src lines 508–530) -/

/-- The per-node lines of the composed text: each node's lines followed by
one empty part (the loop's unconditional `text_parts.append("")`). -/
def bodyParts : List Node → List String
  | [] => []
  | Node.heading t _ :: ns => upperS t :: "" :: bodyParts ns
  | Node.paragraph t :: ns => t :: "" :: bodyParts ns
  | Node.image u cap :: ns =>
    ("[Image: " ++ u ++ "]") ::
      ((if cap ≠ "" then ["Caption: " ++ cap] else []) ++ "" :: bodyParts ns)

/-- The `text_parts` list built by `_worker` (src lines 508–528). -/
def text_parts (meta : Extracted) : List String :=
  (if meta.title ≠ "" then [meta.title, ""] else [])
    ++ (if meta.author ≠ "" then ["By " ++ meta.author] else [])
    ++ (if meta.date ≠ "" then ["Published: " ++ meta.date] else [])
    ++ (if meta.tags ≠ "" then ["Tags: " ++ meta.tags] else [])
    ++ [""]
    ++ bodyParts meta.nodes

/-- `full_text = "\n".join(text_parts).strip()` (src line 530). -/
def full_text (meta : Extracted) : String :=
  pyStripS (String.intercalate "\n" (text_parts meta))

/-! ## Line wrapping (`split_text_to_lines`, src lines 248–263)

reportlab's `stringWidth` is an external measurement; it enters as a
function parameter.  For the algebraic claims it is instantiated with the
faithful model `stringWidthModel`: the sum of per-character widths scaled
by the font size over 1000, which is exactly how reportlab computes it. -/

/-- The greedy word-accumulation loop over the word list, with `cur` the
line under construction. -/
def splitGo (sw : List Char → ℚ) (maxw : ℚ) : List (List Char) → List Char → List (List Char)
  | [], cur => if cur = [] then [] else [cur]
  | w :: ws, cur =>
    let cand := pyStripL (cur ++ ' ' :: w)
    if sw cand ≤ maxw then splitGo sw maxw ws cand
    else if cur = [] then splitGo sw maxw ws w
    else cur :: splitGo sw maxw ws w

/-- `split_text_to_lines(text, fontname, fontsize, max_width)`. -/
def split_text_to_lines (sw : String → String → ℚ → ℚ) (text fontname : String)
    (fontsize maxw : ℚ) : List String :=
  (splitGo (fun l => sw ⟨l⟩ fontname fontsize) maxw (pySplitL text.data) []).map String.mk

/-- reportlab's `stringWidth`: per-character advance widths (from the font,
abstracted as `cw`) summed and scaled by `fontsize / 1000`. -/
def stringWidthModel (cw : Char → ℚ) (s : String) (_fontname : String) (fontsize : ℚ) : ℚ :=
  ((s.data.map cw).sum) * fontsize / 1000

/-! ## Document Renderer (`create_pdf`, src lines 265–354)

The canvas is observed through an event trace: one `Ev.line` per
`drawString`, one `Ev.image` per `drawImage`, one `Ev.gap` per standalone
block-gap decrement.  A `line` event records the font size it was drawn
with, the page, the pen position, and the cursor advance applied right
after it (`y -= adv` in the source).  `imgFetch` models
`download_image_local` + `PIL.Image.open`: `none` = download or decode
failure (the image is skipped), `some (iw, ih)` = decoded pixel size. -/

inductive LineKind where
  | title
  | metaLine
  | heading (tag : String)
  | para
  | caption
deriving DecidableEq

inductive Ev where
  | line (k : LineKind) (size : ℚ) (page : ℕ) (x y adv : ℚ) (text : String)
  | image (page : ℕ) (x y w h : ℚ) (src : String)
  | gap (amount : ℚ)
deriving DecidableEq

structure Cur where
  y : ℚ
  page : ℕ
deriving DecidableEq

/-- `margin = 28` (src line 267). -/
def margin : ℚ := 28

/-- One `drawString` with its preceding page-break check
(`if y < margin + thresh: showPage(); y = PAGE_H - margin`) and its
following cursor advance (`y -= adv`). -/
def drawTextLine (ph thresh adv : ℚ) (k : LineKind) (sz x : ℚ) (txt : String)
    (c : Cur) : Cur × Ev :=
  let c1 : Cur := if c.y < margin + thresh then ⟨ph - margin, c.page + 1⟩ else c
  (⟨c1.y - adv, c1.page⟩, Ev.line k sz c1.page x c1.y adv txt)

/-- A `for ln in lines:` drawing loop. -/
def drawTextBlock (ph thresh adv : ℚ) (k : LineKind) (sz x : ℚ) :
    Cur → List String → Cur × List Ev
  | c, [] => (c, [])
  | c, t :: ts =>
    let p1 := drawTextLine ph thresh adv k sz x t c
    let p2 := drawTextBlock ph thresh adv k sz x p1.1 ts
    (p2.1, p1.2 :: p2.2)

/-- The body of the `for node in nodes:` loop (src lines 303–351). -/
def drawNode (ph usable_w : ℚ) (sw : String → String → ℚ → ℚ) (fontname : String)
    (imgFetch : String → Option (ℕ × ℕ)) (c : Cur) : Node → Cur × List Ev
  | Node.heading t tag =>
    let size : ℚ := if tag = "h1" then 14 else 12
    let p := drawTextBlock ph (size * 2) (size + 2) (LineKind.heading tag) size margin c
      (split_text_to_lines sw t fontname size usable_w)
    (⟨p.1.y - 6, p.1.page⟩, p.2 ++ [Ev.gap 6])
  | Node.paragraph t =>
    let p := drawTextBlock ph (11 * 2) (11 + 2) LineKind.para 11 margin c
      (split_text_to_lines sw t fontname 11 usable_w)
    (⟨p.1.y - 8, p.1.page⟩, p.2 ++ [Ev.gap 8])
  | Node.image src cap =>
    match imgFetch src with
    | none => (c, [])
    | some (iw, ih) =>
      if iw = 0 then (c, [])
      else
        let dw : ℚ := min usable_w (iw : ℚ)
        let dh : ℚ := dw * ((ih : ℚ) / (iw : ℚ))
        let c1 : Cur := if c.y - dh < margin then ⟨ph - margin, c.page + 1⟩ else c
        let ev1 := Ev.image c1.page margin (c1.y - dh) dw dh src
        let c2 : Cur := ⟨c1.y - (dh + 6), c1.page⟩
        if cap ≠ "" then
          let p := drawTextBlock ph 12 11 LineKind.caption 9 (margin + 4) c2
            (split_text_to_lines sw cap fontname 9 usable_w)
          (⟨p.1.y - 6, p.1.page⟩, ev1 :: p.2 ++ [Ev.gap 6])
        else (c2, [ev1])

/-- The node loop. -/
def drawNodes (ph usable_w : ℚ) (sw : String → String → ℚ → ℚ) (fontname : String)
    (imgFetch : String → Option (ℕ × ℕ)) : Cur → List Node → Cur × List Ev
  | c, [] => (c, [])
  | c, n :: ns =>
    let p1 := drawNode ph usable_w sw fontname imgFetch c n
    let p2 := drawNodes ph usable_w sw fontname imgFetch p1.1 ns
    (p2.1, p1.2 ++ p2.2)

/-- `create_pdf(path, meta, nodes, pagesize)` (src lines 265–354), returning
the final cursor and the full event trace. -/
def create_pdf (pw ph : ℚ) (sw : String → String → ℚ → ℚ) (fontname : String)
    (imgFetch : String → Option (ℕ × ℕ)) (meta : Extracted) (nodes : List Node) :
    Cur × List Ev :=
  let usable_w := pw - 2 * margin
  let c0 : Cur := ⟨ph - margin, 0⟩
  let pT :=
    if meta.title ≠ "" then
      let p := drawTextBlock ph 40 22 LineKind.title 18 margin c0
        (split_text_to_lines sw meta.title fontname 18 usable_w)
      ((⟨p.1.y - 6, p.1.page⟩ : Cur), p.2 ++ [Ev.gap 6])
    else (c0, [])
  let info : List String :=
    (if meta.author ≠ "" then ["By " ++ meta.author] else [])
      ++ (if meta.date ≠ "" then [meta.date] else [])
      ++ (if meta.tags ≠ "" then ["Tags: " ++ meta.tags] else [])
  let pM :=
    if info ≠ [] then
      let p := drawTextLine ph 20 16 LineKind.metaLine 9 margin
        (String.intercalate "  |  " info) pT.1
      ((⟨p.1.y - 6, p.1.page⟩ : Cur), [p.2, Ev.gap 6])
    else (pT.1, [])
  let pN := drawNodes ph usable_w sw fontname imgFetch pM.1 nodes
  (pN.1, pT.2 ++ pM.2 ++ pN.2)

/-! ## Specification predicates -/

/-- The node-stream invariant (spec §3): headings and paragraphs carry
non-empty trimmed text, paragraphs strictly more than 10 characters. -/
def nodeInvariant : Node → Bool
  | Node.heading t _ => decide (pyStripS t ≠ "")
  | Node.paragraph t => decide (pyStripS t ≠ "" ∧ 10 < (pyStripS t).length)
  | Node.image _ _ => true

/-- The font size each line kind is drawn with (spec §4.5). -/
def sizeOfKind : LineKind → ℚ
  | LineKind.title => 18
  | LineKind.metaLine => 9
  | LineKind.heading tag => if tag = "h1" then 14 else 12
  | LineKind.para => 11
  | LineKind.caption => 9

/-- The cursor advance the source applies after each line kind. -/
def advOfKind : LineKind → ℚ
  | LineKind.title => 22
  | LineKind.metaLine => 16
  | LineKind.heading tag => (if tag = "h1" then 14 else 12) + 2
  | LineKind.para => 13
  | LineKind.caption => 11

/-- Per-line layout conformance: font size and advance match the tables,
and every standalone block gap is between 6 and 8 points. -/
def lineSpecOkB : Ev → Bool
  | Ev.line k sz _ _ _ adv _ => decide (sz = sizeOfKind k ∧ adv = advOfKind k)
  | Ev.gap a => decide (6 ≤ a ∧ a ≤ 8)
  | Ev.image _ _ _ _ _ _ => true

/-- The page-break threshold the source checks before drawing each line
kind (`if y < margin + thresh`). -/
def threshOfKind : LineKind → ℚ
  | LineKind.title => 40
  | LineKind.metaLine => 20
  | LineKind.heading tag => (if tag = "h1" then 14 else 12) * 2
  | LineKind.para => 22
  | LineKind.caption => 12

/-- Pagination soundness for a drawn line: its pen position sits at least
its break threshold above the bottom margin, so the line that would have
crossed the threshold was moved whole to a fresh page. -/
def lineAboveMargin : Ev → Prop
  | Ev.line k _ _ _ y _ _ => margin + threshOfKind k ≤ y
  | _ => True

/-- Image-scaling conformance: a drawn image comes from a decoded source,
its width is `min(usable width, pixel width)`, never exceeding the pixel
width, and drawn height/width ratio equals the pixel ratio (stated
cross-multiplied to avoid division). -/
def imageSpecOk (usable_w : ℚ) (imgFetch : String → Option (ℕ × ℕ)) : Ev → Prop
  | Ev.image _ _ _ w h src => ∃ iw ih : ℕ, imgFetch src = some (iw, ih) ∧ iw ≠ 0 ∧
      w = min usable_w (iw : ℚ) ∧ w ≤ (iw : ℚ) ∧ h * (iw : ℚ) = w * (ih : ℚ)
  | _ => True

/-- A word as produced by `str.split()`: non-empty and whitespace-free. -/
def IsWord (w : List Char) : Prop := w ≠ [] ∧ ∀ c ∈ w, c.isWhitespace = false

/-- Words joined by single spaces — the shape of the `cur` accumulator in
`split_text_to_lines`. -/
def joinSp : List (List Char) → List Char
  | [] => []
  | w :: ws =>
    match ws with
    | [] => w
    | _ :: _ => w ++ ' ' :: joinSp ws

/-! ## Concrete inputs used by counterexamples and witnesses -/

/-- The round-trip scenario of the spec: metadata title present, one
level-1 heading "Title", one long-enough paragraph, no images. -/
def roundtripMeta : Extracted :=
  { title := "My Article", author := "", date := "", tags := "", lead_image := "",
    nodes := [Node.heading "Title" "h1",
              Node.paragraph "This is a long enough paragraph to pass the filter."] }

/-- The same scenario with no metadata at all. -/
def roundtripMetaBare : Extracted :=
  { title := "", author := "", date := "", tags := "", lead_image := "",
    nodes := [Node.heading "Title" "h1",
              Node.paragraph "This is a long enough paragraph to pass the filter."] }

/-- 2000 whitespace characters: length-2000 markup whose trimmed length is 0. -/
def spaces2000 : String := ⟨List.replicate 2000 ' '⟩

/-- 50 ordinary characters. -/
def aChars50 : String := ⟨List.replicate 50 'a'⟩

/-- 900 ordinary characters: trimmed length well above 800. -/
def aChars900 : String := ⟨List.replicate 900 'a'⟩

/-- 201 ordinary characters: a rendered result just above the 200-byte bar. -/
def aChars201 : String := ⟨List.replicate 201 'a'⟩

/-- A document carrying an `author` meta tag, an `article:author` meta tag
and a `.byline` element with three different values. -/
def authorDoc : Doc :=
  { emptyDoc with
    metaName := fun k =>
      if k = "author" then some (some "John")
      else if k = "article:author" then some (some "Jane")
      else none
    selByline := some "Bob" }

/-- A document whose only author sources are an `article:author` meta tag
and a `.byline` element. -/
def authorDocNoPlain : Doc :=
  { emptyDoc with
    metaName := fun k => if k = "article:author" then some (some "Jane") else none
    selByline := some "Bob" }

/-- Width model that makes every word overflow a narrow page: each
character 1000 units wide. -/
def swByLen : String → String → ℚ → ℚ := fun s _ fs => (s.length : ℚ) * fs

/-- A metadata-only input whose title wraps onto two lines under `swByLen`
on a 100-point-wide page. -/
def titleOnlyMeta : Extracted :=
  { title := "Hi There", author := "", date := "", tags := "", lead_image := "", nodes := [] }

/-- Title plus one paragraph, for the pagination witness. -/
def titleParaMeta : Extracted :=
  { title := "T", author := "", date := "", tags := "", lead_image := "",
    nodes := [Node.paragraph "Hello world"] }

/-- A single image node. -/
def oneImageMeta : Extracted :=
  { title := "", author := "", date := "", tags := "", lead_image := "",
    nodes := [Node.image "u" ""] }

/-- Image fetch outcome: URL "u" decodes to a 100×50 image. -/
def imgFetch100x50 : String → Option (ℕ × ℕ) :=
  fun s => if s = "u" then some (100, 50) else none

/-! ## Lemmas about trimming -/

theorem ltrimL_cons_of_ws {c : Char} (h : c.isWhitespace = true) (cs : List Char) :
    ltrimL (c :: cs) = ltrimL cs := by
  simp [ltrimL, List.dropWhile, h]

theorem ltrimL_cons_of_not_ws {c : Char} (h : c.isWhitespace = false) (cs : List Char) :
    ltrimL (c :: cs) = c :: cs := by
  simp [ltrimL, List.dropWhile, h]

theorem ltrimL_length_le (l : List Char) : (ltrimL l).length ≤ l.length := by
  induction l with
  | nil => simp [ltrimL]
  | cons c cs ih =>
    cases h : c.isWhitespace with
    | true =>
      rw [ltrimL_cons_of_ws h]
      exact le_trans ih (by simp)
    | false => rw [ltrimL_cons_of_not_ws h]

theorem ltrimL_idem (l : List Char) : ltrimL (ltrimL l) = ltrimL l := by
  induction l with
  | nil => rfl
  | cons c cs ih =>
    cases h : c.isWhitespace with
    | true => rw [ltrimL_cons_of_ws h]; exact ih
    | false => rw [ltrimL_cons_of_not_ws h, ltrimL_cons_of_not_ws h]

theorem ltrimL_fixed_head {c : Char} {cs : List Char} (h : ltrimL (c :: cs) = c :: cs) :
    c.isWhitespace = false := by
  cases hw : c.isWhitespace with
  | false => rfl
  | true =>
    rw [ltrimL_cons_of_ws hw] at h
    have hlen := ltrimL_length_le cs
    rw [h] at hlen
    simp at hlen

theorem rtrimL_cons (c : Char) (cs : List Char) :
    rtrimL (c :: cs) =
      match rtrimL cs with
      | [] => if c.isWhitespace then [] else [c]
      | r => c :: r := rfl

theorem rtrimL_cons_nil {cs : List Char} (h : rtrimL cs = []) (c : Char) :
    rtrimL (c :: cs) = if c.isWhitespace then [] else [c] := by
  rw [rtrimL_cons, h]

theorem rtrimL_cons_cons {cs r rs} (h : rtrimL cs = r :: rs) (c : Char) :
    rtrimL (c :: cs) = c :: r :: rs := by
  rw [rtrimL_cons, h]

theorem rtrimL_length_le (l : List Char) : (rtrimL l).length ≤ l.length := by
  induction l with
  | nil => simp [rtrimL]
  | cons c cs ih =>
    cases h : rtrimL cs with
    | nil =>
      rw [rtrimL_cons_nil h]
      cases hw : c.isWhitespace <;> simp
    | cons r rs =>
      rw [rtrimL_cons_cons h]
      rw [h] at ih
      simpa using ih

theorem rtrimL_idem (l : List Char) : rtrimL (rtrimL l) = rtrimL l := by
  induction l with
  | nil => rfl
  | cons c cs ih =>
    cases h : rtrimL cs with
    | nil =>
      rw [rtrimL_cons_nil h]
      cases hw : c.isWhitespace with
      | true => simp [hw, rtrimL]
      | false => simp [rtrimL_cons_nil (show rtrimL [] = [] from rfl), hw]
    | cons r rs =>
      rw [h] at ih
      rw [rtrimL_cons_cons h, rtrimL_cons_cons ih]

theorem ltrimL_rtrimL {m : List Char} (h : ltrimL m = m) : ltrimL (rtrimL m) = rtrimL m := by
  cases m with
  | nil => rfl
  | cons c cs =>
    have hw : c.isWhitespace = false := ltrimL_fixed_head h
    cases h2 : rtrimL cs with
    | nil =>
      rw [rtrimL_cons_nil h2, hw]
      simp [ltrimL_cons_of_not_ws hw]
    | cons r rs =>
      rw [rtrimL_cons_cons h2, ltrimL_cons_of_not_ws hw]

theorem pyStripL_idem (l : List Char) : pyStripL (pyStripL l) = pyStripL l := by
  show rtrimL (ltrimL (rtrimL (ltrimL l))) = rtrimL (ltrimL l)
  rw [ltrimL_rtrimL (ltrimL_idem l), rtrimL_idem]

theorem pyStripL_length_le (l : List Char) : (pyStripL l).length ≤ l.length :=
  le_trans (rtrimL_length_le _) (ltrimL_length_le _)

theorem pyStripS_idem (s : String) : pyStripS (pyStripS s) = pyStripS s :=
  congrArg String.mk (pyStripL_idem s.data)

theorem pyStripS_length (s : String) : (pyStripS s).length = (pyStripL s.data).length := rfl

/-! ## Lemmas about the fetch decision -/

theorem need_render_some (s domain : String) :
    need_render (some s) domain = true ↔
      ((pyStripL s.data).length < 800 ∨ containsS (lowerS s) "<noscript" = true ∨
       containsS (lowerS s) "javascript required" = true ∨
       js_heavy_sites.any (fun d => containsS domain d) = true) := by
  simp only [need_render, Option.getD]
  by_cases h8 : (pyStripL s.data).length < 800
  · simp [h8]
  · simp [h8, or_assoc]

/-- Claim C4 (counterexample): a markup string of length 2000 that carries
no script-required marker, for a host outside the script-heavy list, can
still trigger the rendering fallback — 2000 whitespace characters have
trimmed length 0 < 800, so `need_render` is true, contradicting the
claim's "never does". -/
theorem ltrimL_replicate_space (n : ℕ) : ltrimL (List.replicate n ' ') = [] := by
  induction n with
  | zero => rfl
  | succ n ih =>
    rw [List.replicate_succ, ltrimL_cons_of_ws (by decide)]
    exact ih

theorem ltrimL_all_not_ws {l : List Char} (h : ∀ c ∈ l, c.isWhitespace = false) :
    ltrimL l = l := by
  cases l with
  | nil => rfl
  | cons c cs => exact ltrimL_cons_of_not_ws (h c (List.mem_cons_self c cs)) cs

theorem rtrimL_all_not_ws {l : List Char} (h : ∀ c ∈ l, c.isWhitespace = false) :
    rtrimL l = l := by
  induction l with
  | nil => rfl
  | cons c cs ih =>
    have hc : c.isWhitespace = false := h c (List.mem_cons_self c cs)
    have ihcs : rtrimL cs = cs := ih (fun d hd => h d (List.mem_cons_of_mem c hd))
    cases cs with
    | nil => rw [rtrimL_cons_nil (show rtrimL [] = [] from rfl), hc]; rfl
    | cons d ds => rw [rtrimL_cons_cons ihcs]

theorem pyStripL_all_not_ws {l : List Char} (h : ∀ c ∈ l, c.isWhitespace = false) :
    pyStripL l = l := by
  show rtrimL (ltrimL l) = l
  rw [ltrimL_all_not_ws h, rtrimL_all_not_ws h]

theorem isInfixL_head_not_mem {c : Char} {n l : List Char} (h : c ∉ l) :
    isInfixL (c :: n) l = false := by
  induction l with
  | nil => rfl
  | cons b bs ih =>
    have hcb : (c == b) = false := by
      simp only [beq_eq_false_iff_ne]
      intro he
      exact h (he ▸ List.mem_cons_self b bs)
    simp [isInfixL, isPrefixL, hcb, ih (fun hm => h (List.mem_cons_of_mem _ hm))]

theorem lowerS_spaces2000 : (lowerS spaces2000).data = List.replicate 2000 ' ' := by
  show (List.replicate 2000 ' ').map Char.toLower = List.replicate 2000 ' '
  rw [List.map_replicate, show Char.toLower ' ' = ' ' from rfl]

/-- Claim C4 (counterexample): a markup string of length 2000 that carries
no script-required marker, for a host outside the script-heavy list, can
still trigger the rendering fallback — 2000 whitespace characters have
trimmed length 0 < 800, so `need_render` is true, contradicting the
claim's "never does". -/
theorem c4_counterexample :
    spaces2000.length = 2000 ∧
    containsS (lowerS spaces2000) "<noscript" = false ∧
    containsS (lowerS spaces2000) "javascript required" = false ∧
    js_heavy_sites.any (fun d => containsS "example.com" d) = false ∧
    need_render (some spaces2000) "example.com" = true := by
  refine ⟨?_, ?_, ?_, ?_, ?_⟩
  · show (List.replicate 2000 ' ').length = 2000
    rw [List.length_replicate]
  · show isInfixL ('<' :: "noscript".data) (lowerS spaces2000).data = false
    rw [lowerS_spaces2000]
    exact isInfixL_head_not_mem
      (by intro hm; rw [List.mem_replicate] at hm; exact absurd hm.2 (by decide))
  · show isInfixL ('j' :: "avascript required".data) (lowerS spaces2000).data = false
    rw [lowerS_spaces2000]
    exact isInfixL_head_not_mem
      (by intro hm; rw [List.mem_replicate] at hm; exact absurd hm.2 (by decide))
  · decide
  · refine (need_render_some _ _).mpr (Or.inl ?_)
    show (pyStripL (List.replicate 2000 ' ')).length < 800
    show (rtrimL (ltrimL (List.replicate 2000 ' '))).length < 800
    rw [ltrimL_replicate_space]
    decide

/-- Claim C4 (amended): the fallback decision is equivalent to — markup
empty, or trimmed length < 800, or a case-insensitive script-required
marker present, or the host matching the script-heavy list; a length-50
markup always triggers it; and a markup whose TRIMMED length is ≥ 800
(rather than raw length 2000) with no markers and an unlisted host never
does. -/
theorem c4_amended (s domain : String) :
    (need_render (some s) domain = true ↔
      (s = "" ∨ (pyStripS s).length < 800 ∨
       containsS (lowerS s) "<noscript" = true ∨
       containsS (lowerS s) "javascript required" = true ∨
       js_heavy_sites.any (fun d => containsS domain d) = true)) ∧
    (s.length = 50 → need_render (some s) domain = true) ∧
    (800 ≤ (pyStripS s).length →
      containsS (lowerS s) "<noscript" = false →
      containsS (lowerS s) "javascript required" = false →
      js_heavy_sites.any (fun d => containsS domain d) = false →
      need_render (some s) domain = false) := by
  refine ⟨?_, ?_, ?_⟩
  · rw [need_render_some]
    rw [show (pyStripS s).length = (pyStripL s.data).length from rfl]
    constructor
    · exact fun h => Or.inr h
    · rintro (rfl | h)
      · exact Or.inl (by decide)
      · exact h
  · intro h50
    refine (need_render_some _ _).mpr (Or.inl ?_)
    have h1 : (pyStripL s.data).length ≤ s.data.length := pyStripL_length_le _
    have h2 : s.data.length = 50 := h50
    omega
  · intro hge hn hj hd
    rw [Bool.eq_false_iff]
    intro htrue
    rcases (need_render_some s domain).mp htrue with h | h | h | h
    · rw [show (pyStripS s).length = (pyStripL s.data).length from rfl] at hge
      omega
    · rw [hn] at h; exact Bool.false_ne_true h
    · rw [hj] at h; exact Bool.false_ne_true h
    · rw [hd] at h; exact Bool.false_ne_true h

/-- Claim C4 (witness): 50 ordinary characters trigger the fallback;
900 ordinary characters (trimmed length 900 ≥ 800), marker-free and with
an unlisted host, do not. -/
theorem c4_witness :
    need_render (some aChars50) "example.com" = true ∧
    need_render (some aChars900) "example.com" = false := by
  constructor
  · refine (c4_amended aChars50 "example.com").2.1 ?_
    show (List.replicate 50 'a').length = 50
    rw [List.length_replicate]
  · have hdat : (lowerS aChars900).data = List.replicate 900 'a' := by
      show (List.replicate 900 'a').map Char.toLower = _
      rw [List.map_replicate, show Char.toLower 'a' = 'a' by decide]
    have hrep : ∀ c ∈ List.replicate 900 'a', c.isWhitespace = false := by
      intro c hc
      rw [List.mem_replicate] at hc
      rw [hc.2]
      decide
    refine (c4_amended aChars900 "example.com").2.2 ?_ ?_ ?_ ?_
    · show 800 ≤ (pyStripL (List.replicate 900 'a')).length
      rw [pyStripL_all_not_ws hrep, List.length_replicate]
      omega
    · show isInfixL ('<' :: "noscript".data) (lowerS aChars900).data = false
      rw [hdat]
      exact isInfixL_head_not_mem
        (by intro hm; rw [List.mem_replicate] at hm; exact absurd hm.2 (by decide))
    · show isInfixL ('j' :: "avascript required".data) (lowerS aChars900).data = false
      rw [hdat]
      exact isInfixL_head_not_mem
        (by intro hm; rw [List.mem_replicate] at hm; exact absurd hm.2 (by decide))
    · decide

/-- Claim C5 (counterexample): when the static request fails but the
rendering fallback succeeds with more than 200 trimmed bytes, `fetch_html`
returns the rendered markup and the fallback's final URL — not empty
markup with the original URL as the claim states for every failed network
request. -/
theorem c5_counterexample :
    fetch_html "http://orig.com" "orig.com" none (some (aChars201, "http://fin.com")) true
        = (aChars201, "http://fin.com") ∧
    fetch_html "http://orig.com" "orig.com" none (some (aChars201, "http://fin.com")) true
        ≠ ("", "http://orig.com") := by
  have h1 : fetch_html "http://orig.com" "orig.com" none
      (some (aChars201, "http://fin.com")) true = (aChars201, "http://fin.com") := by
    set_option maxRecDepth 40000 in rfl
  refine ⟨h1, ?_⟩
  rw [h1]
  intro h
  have h2 : aChars201 = "" := congrArg Prod.fst h
  have h3 : (List.replicate 201 'a').length = ("" : String).data.length :=
    congrArg (fun t : String => t.data.length) h2
  rw [List.length_replicate] at h3
  exact absurd h3 (by decide)

/-- Claim C5 (amended): `fetch_html` is a total function — it always
returns a `(markup, resolvedURL)` pair — and when the static request
fails AND the rendering fallback is disabled, unavailable, or yields at
most 200 trimmed bytes, it returns empty markup with the original URL. -/
theorem c5_amended (url domain : String) (pwResult : Option (String × String)) (tryPw : Bool)
    (h : tryPw = false ∨ pwResult = none ∨
      ∀ r f, pwResult = some (r, f) → (r = "" ∨ (pyStripL r.data).length ≤ 200)) :
    fetch_html url domain none pwResult tryPw = ("", url) := by
  cases pwResult with
  | none => simp [fetch_html]
  | some p =>
    obtain ⟨r, f⟩ := p
    rcases h with hF | hN | hA
    · subst hF
      simp [fetch_html]
    · exact absurd hN (by simp)
    · have hr := hA r f rfl
      have hcond : ¬(r ≠ "" ∧ 200 < (pyStripL r.data).length) := by
        rcases hr with h1 | h2
        · exact fun hc => hc.1 h1
        · exact fun hc => absurd hc.2 (not_lt.mpr h2)
      simp [fetch_html, hcond]

/-- Claim C5 (witness): static failure with no fallback available yields
empty markup and the original URL. -/
theorem c5_witness :
    fetch_html "http://x.com" "x.com" none none true = ("", "http://x.com") :=
  c5_amended "http://x.com" "x.com" none true (Or.inr (Or.inl rfl))

/-- Claim C1 (counterexample): on the round-trip scenario the composed
text is `title, blank, blank, TITLE, blank, paragraph` with NO trailing
blank line — the final `.strip()` removes it and the unconditional blank
after the metadata block doubles up with the blank following the title —
so the claimed layout (one blank line after every part, including a
trailing one) does not hold, whether or not the trailing blank is read as
a final newline. -/
theorem c1_counterexample :
    full_text roundtripMeta =
      "My Article\n\n\nTITLE\n\nThis is a long enough paragraph to pass the filter." ∧
    full_text roundtripMeta ≠
      "My Article\n\nTITLE\n\nThis is a long enough paragraph to pass the filter.\n" ∧
    full_text roundtripMeta ≠
      "My Article\n\nTITLE\n\nThis is a long enough paragraph to pass the filter." := by
  refine ⟨?_, ?_, ?_⟩ <;> decide

/-- Claim C1 (amended): on the round-trip scenario the composer yields the
title line, TWO blank lines (the title's blank plus the unconditional
post-metadata blank), the uppercased heading, one blank line, the
paragraph line, and no trailing blank (stripped); with no metadata at all
it yields heading, one blank line, paragraph.  Inside the node section one
blank line separates consecutive nodes. -/
theorem c1_amended :
    full_text roundtripMeta =
      "My Article\n\n\nTITLE\n\nThis is a long enough paragraph to pass the filter." ∧
    full_text roundtripMetaBare =
      "TITLE\n\nThis is a long enough paragraph to pass the filter." := by
  constructor <;> decide

/-- Claim C8 (counterexample): a document whose `author` meta tag says
"John", whose `article:author` meta tag says "Jane" and whose `.byline`
says "Bob" extracts "John" — the earlier `author` candidate wins, so the
claim's "the `article:author` value is extracted" fails for such
documents. -/
theorem c8_counterexample :
    extractAuthor authorDoc = "John" ∧ extractAuthor authorDoc ≠ "Jane" := by
  constructor <;> decide

/-- Claim C8 (amended): provided the earlier `author` metadata candidate
yields no truthy content, a non-empty (after trimming) `article:author`
meta content is extracted as the author, regardless of any `.byline` or
other CSS fallback — metadata candidates are tried in order before the
CSS fallback and the first non-empty match wins. -/
theorem c8_amended (d : Doc) (c : String)
    (hA : metaFind d "author" = none ∨ metaFind d "author" = some none ∨
      metaFind d "author" = some (some ""))
    (hB : metaFind d "article:author" = some (some c))
    (hc : c ≠ "") (hcs : pyStripS c ≠ "") :
    extractAuthor d = pyStripS c := by
  have hloop : metaContentLoop d ["author", "article:author", "og:article:author", "byline"]
      = some (pyStripS c) := by
    have step1 : metaContentLoop d ["author", "article:author", "og:article:author", "byline"]
        = metaContentLoop d ["article:author", "og:article:author", "byline"] := by
      rcases hA with h | h | h <;> simp [metaContentLoop, h]
    rw [step1]
    simp [metaContentLoop, hB, hc]
  unfold extractAuthor
  rw [hloop]
  have hno : ¬(some (pyStripS c) = none ∨ some (pyStripS c) = some "") := by
    simp [hcs]
  simp only [if_neg hno, Option.getD_some]

/-- Claim C8 (witness): with no `author` meta tag, `article:author` "Jane"
beats `.byline` "Bob". -/
theorem c8_witness : extractAuthor authorDocNoPlain = "Jane" :=
  (c8_amended authorDocNoPlain "Jane" (Or.inl (by decide)) (by decide) (by decide)
    (by decide)).trans (by decide)

/-- Claim C9: extraction from the parse of empty markup (readability
failing on it) yields all-empty metadata and an empty node stream, the
composer returns the empty string, and the renderer draws nothing — both
consumers succeed, producing an empty artifact instead of erroring. -/
theorem c9_degradation (base : String) (uj : String → String → String) (pw ph : ℚ)
    (sw : String → String → ℚ → ℚ) (fontname : String)
    (imgFetch : String → Option (ℕ × ℕ)) :
    extract_more_elements emptyDoc base uj none =
      { title := "", author := "", date := "", tags := "", lead_image := "", nodes := [] } ∧
    full_text (extract_more_elements emptyDoc base uj none) = "" ∧
    (create_pdf pw ph sw fontname imgFetch
        (extract_more_elements emptyDoc base uj none)
        (extract_more_elements emptyDoc base uj none).nodes).2 = [] := by
  have hx : extract_more_elements emptyDoc base uj none =
      { title := "", author := "", date := "", tags := "", lead_image := "", nodes := [] } := rfl
  refine ⟨hx, ?_, ?_⟩
  · rw [hx]
    decide
  · rw [hx]
    rfl

/-- Every node the stream builder emits satisfies the text invariant, for
any descendant list: heading guards on non-empty trimmed text, paragraph
guards on trimmed length > 10, and trimming is idempotent. -/
theorem buildNodes_all_invariant (base : String) (uj : String → String → String) :
    ∀ els : List Elem, (buildNodes base uj els).all nodeInvariant = true := by
  intro els
  induction els with
  | nil => rfl
  | cons el rest ih =>
    unfold buildNodes
    by_cases h1 : el.name = "h1" ∨ el.name = "h2" ∨ el.name = "h3" ∨ el.name = "h4"
    · rw [if_pos h1, List.all_append, ih, Bool.and_true]
      by_cases ht : pyStripS el.text ≠ ""
      · rw [if_pos ht]
        simp [nodeInvariant, pyStripS_idem, ht]
      · rw [if_neg ht]
        rfl
    · rw [if_neg h1]
      by_cases h2 : el.name = "p" ∨ el.name = "blockquote" ∨ el.name = "li"
      · rw [if_pos h2, List.all_append, ih, Bool.and_true]
        by_cases ht : pyStripS el.text ≠ "" ∧ 10 < (pyStripS el.text).length
        · rw [if_pos ht]
          simp [nodeInvariant, pyStripS_idem, ht.1, ht.2]
        · rw [if_neg ht]
          rfl
      · rw [if_neg h2]
        by_cases h3 : el.name = "img"
        · rw [if_pos h3, List.all_append, ih, Bool.and_true]
          cases hsrc : srcOf el with
          | none => rfl
          | some s =>
            by_cases hs : s = ""
            · simp [hs]
            · simp [hs, nodeInvariant]
        · rw [if_neg h3]
          exact ih

/-- Claim C2: for every document, base URL, URL-resolver and readability
outcome, the extracted node stream contains no paragraph with trimmed
length ≤ 10 and no heading or paragraph with empty trimmed text. -/
theorem c2_node_invariant (d : Doc) (base : String) (uj : String → String → String)
    (rd : Option (List Elem × String)) :
    ((extract_more_elements d base uj rd).nodes).all nodeInvariant = true := by
  show (buildNodes base uj (selectContent d rd)).all nodeInvariant = true
  exact buildNodes_all_invariant base uj _

/-! ## Lemmas about the renderer: pagination (C6) -/

theorem drawTextLine_above (ph thresh adv : ℚ) (k : LineKind) (sz x : ℚ) (t : String)
    (c : Cur) (hk : threshOfKind k = thresh) (hth : margin + thresh ≤ ph - margin) :
    lineAboveMargin (drawTextLine ph thresh adv k sz x t c).2 := by
  unfold drawTextLine
  by_cases hbr : c.y < margin + thresh
  · rw [if_pos hbr]
    show margin + threshOfKind k ≤ ph - margin
    rw [hk]
    exact hth
  · rw [if_neg hbr]
    show margin + threshOfKind k ≤ c.y
    rw [hk]
    exact le_of_not_lt hbr

theorem drawTextBlock_above (ph thresh adv : ℚ) (k : LineKind) (sz x : ℚ)
    (hk : threshOfKind k = thresh) (hth : margin + thresh ≤ ph - margin) :
    ∀ (ts : List String) (c : Cur),
      ∀ e ∈ (drawTextBlock ph thresh adv k sz x c ts).2, lineAboveMargin e := by
  intro ts
  induction ts with
  | nil =>
    intro c e he
    simp [drawTextBlock] at he
  | cons t ts ih =>
    intro c e he
    simp only [drawTextBlock] at he
    rcases List.mem_cons.mp he with rfl | hmem
    · exact drawTextLine_above ph thresh adv k sz x t c hk hth
    · exact ih _ e hmem

theorem drawNode_above (ph usable_w : ℚ) (sw : String → String → ℚ → ℚ) (fontname : String)
    (imgFetch : String → Option (ℕ × ℕ)) (hph : 96 ≤ ph) (c : Cur) (n : Node) :
    ∀ e ∈ (drawNode ph usable_w sw fontname imgFetch c n).2, lineAboveMargin e := by
  cases n with
  | heading t tag =>
    intro e he
    simp only [drawNode] at he
    rw [List.mem_append] at he
    rcases he with he | he
    · refine drawTextBlock_above ph ((if tag = "h1" then 14 else 12) * 2)
        ((if tag = "h1" then 14 else 12) + 2) (LineKind.heading tag)
        (if tag = "h1" then 14 else 12) margin ?_ ?_ _ _ e he
      · show threshOfKind (LineKind.heading tag) = (if tag = "h1" then 14 else 12) * 2
        rfl
      · show margin + (if tag = "h1" then 14 else 12) * 2 ≤ ph - margin
        rw [margin]
        by_cases h : tag = "h1"
        · rw [if_pos h]; linarith
        · rw [if_neg h]; linarith
    · rcases List.mem_singleton.mp he with rfl
      trivial
  | paragraph t =>
    intro e he
    simp only [drawNode] at he
    rw [List.mem_append] at he
    rcases he with he | he
    · refine drawTextBlock_above ph _ _ _ _ _ ?_ ?_ _ _ e he
      · show threshOfKind LineKind.para = 11 * 2
        norm_num [threshOfKind]
      · show margin + 11 * 2 ≤ ph - margin
        rw [margin]
        linarith
    · rcases List.mem_singleton.mp he with rfl
      trivial
  | image src cap =>
    intro e he
    simp only [drawNode] at he
    cases hf : imgFetch src with
    | none =>
      rw [hf] at he
      simp at he
    | some p =>
      obtain ⟨iw, ih⟩ := p
      simp only [hf] at he
      by_cases hz : iw = 0
      · rw [if_pos hz] at he
        simp at he
      · rw [if_neg hz] at he
        by_cases hcap : cap ≠ ""
        · rw [if_pos hcap] at he
          rcases List.mem_cons.mp he with rfl | he2
          · trivial
          · simp only [List.append_eq, List.mem_append, List.mem_singleton] at he2
            rcases he2 with he2 | rfl
            · refine drawTextBlock_above ph 12 11 LineKind.caption 9 (margin + 4) ?_ ?_ _ _ e he2
              · show threshOfKind LineKind.caption = 12
                rfl
              · show margin + 12 ≤ ph - margin
                rw [margin]
                linarith
            · trivial
        · rw [if_neg hcap] at he
          rcases List.mem_singleton.mp he with rfl
          trivial

theorem drawNodes_above (ph usable_w : ℚ) (sw : String → String → ℚ → ℚ) (fontname : String)
    (imgFetch : String → Option (ℕ × ℕ)) (hph : 96 ≤ ph) :
    ∀ (ns : List Node) (c : Cur),
      ∀ e ∈ (drawNodes ph usable_w sw fontname imgFetch c ns).2, lineAboveMargin e := by
  intro ns
  induction ns with
  | nil =>
    intro c e he
    simp [drawNodes] at he
  | cons n ns ih =>
    intro c e he
    simp only [drawNodes] at he
    rw [List.mem_append] at he
    rcases he with he | he
    · exact drawNode_above ph usable_w sw fontname imgFetch hph c n e he
    · exact ih _ e he

/-- Claim C6: on any page at least 96pt tall (A4 is 842pt), every line of
title, metadata, heading, paragraph, or caption text is drawn with its pen
position at least its break threshold above the bottom margin: the
fixed-threshold check (`if y < margin + thresh`) runs before every single
`drawString`, so a line that would cross the bottom margin is moved whole
to a fresh page (cursor reset to the top margin) — no line is ever split
across two pages. -/
theorem c6_no_line_split (pw ph : ℚ) (sw : String → String → ℚ → ℚ) (fontname : String)
    (imgFetch : String → Option (ℕ × ℕ)) (meta : Extracted) (nodes : List Node)
    (hph : 96 ≤ ph) :
    ∀ e ∈ (create_pdf pw ph sw fontname imgFetch meta nodes).2, lineAboveMargin e := by
  intro e he
  unfold create_pdf at he
  simp only [List.mem_append] at he
  rcases he with (he | he) | he
  · by_cases hT : meta.title ≠ ""
    · rw [if_pos hT] at he
      dsimp only at he
      rw [List.mem_append] at he
      rcases he with he | he
      · exact drawTextBlock_above ph 40 22 LineKind.title 18 margin rfl
          (by rw [margin]; linarith) _ _ e he
      · rcases List.mem_singleton.mp he with rfl
        trivial
    · rw [if_neg hT] at he
      simp at he
  · by_cases hI : (((if meta.author ≠ "" then ["By " ++ meta.author] else []) ++
        (if meta.date ≠ "" then [meta.date] else [])) ++
          (if meta.tags ≠ "" then ["Tags: " ++ meta.tags] else [])) ≠ []
    · rw [if_pos hI] at he
      dsimp only at he
      rcases List.mem_cons.mp he with rfl | he
      · exact drawTextLine_above ph 20 16 LineKind.metaLine 9 margin _ _ rfl
          (by rw [margin]; linarith)
      · rcases List.mem_singleton.mp he with rfl
        trivial
    · rw [if_neg hI] at he
      simp at he
  · exact drawNodes_above ph (pw - 2 * margin) sw fontname imgFetch hph nodes _ e he

set_option maxHeartbeats 1000000 in
/-- The full event trace of a concrete render: title "T" then paragraph
"Hello world" on a 200×842 page with a zero-width measurer. -/
theorem titleParaTrace :
    (create_pdf 200 842 (fun _ _ _ => 0) "H" (fun _ => none) titleParaMeta
      titleParaMeta.nodes).2 =
    [Ev.line LineKind.title 18 0 28 814 22 "T", Ev.gap 6,
     Ev.line LineKind.para 11 0 28 786 13 "Hello world", Ev.gap 8] := by
  norm_num [create_pdf, titleParaMeta, drawNodes, drawNode, drawTextBlock, drawTextLine,
    split_text_to_lines, splitGo, pySplitL, pySplitAcc, pyStripL, ltrimL, rtrimL,
    List.dropWhile, margin,
    show "T".data = ['T'] from rfl,
    show "Hello world".data = ['H','e','l','l','o',' ','w','o','r','l','d'] from rfl,
    (by decide : ("T" : String) ≠ ""), (by decide : ("Hello world" : String) ≠ ""),
    (by decide : 'T'.isWhitespace = false), (by decide : 'H'.isWhitespace = false),
    (by decide : 'e'.isWhitespace = false), (by decide : 'l'.isWhitespace = false),
    (by decide : 'o'.isWhitespace = false), (by decide : ' '.isWhitespace = true),
    (by decide : 'w'.isWhitespace = false), (by decide : 'r'.isWhitespace = false),
    (by decide : 'd'.isWhitespace = false),
    show String.mk ['T'] = "T" from rfl,
    show String.mk ['H','e','l','l','o'] = "Hello" from rfl,
    show String.mk ['H','e','l','l','o',' ','w','o','r','l','d'] = "Hello world" from rfl]

/-- Claim C6 (witness): on a 200×842 page the title line of a concrete
render sits at y = 814, at least its threshold (40pt) above the margin. -/
theorem c6_witness : lineAboveMargin (Ev.line LineKind.title 18 0 28 814 22 "T") :=
  c6_no_line_split 200 842 (fun _ _ _ => 0) "H" (fun _ => none) titleParaMeta
    titleParaMeta.nodes (by norm_num) (Ev.line LineKind.title 18 0 28 814 22 "T")
    (by rw [titleParaTrace]; exact List.mem_cons_self _ _)

/-! ## Lemmas about the renderer: font sizes and advances (C3) -/

theorem drawTextBlock_all (P : Ev → Bool) (ph thresh adv : ℚ) (k : LineKind) (sz x : ℚ)
    (hP : ∀ pg y t, P (Ev.line k sz pg x y adv t) = true) :
    ∀ (ts : List String) (c : Cur),
      ((drawTextBlock ph thresh adv k sz x c ts).2).all P = true := by
  intro ts
  induction ts with
  | nil => intro c; rfl
  | cons t ts ih =>
    intro c
    simp only [drawTextBlock, List.all_cons, ih, Bool.and_true]
    exact hP _ _ _

theorem lineSpecOkB_gap6 : lineSpecOkB (Ev.gap 6) = true := by
  simp only [lineSpecOkB, decide_eq_true_eq]
  norm_num

theorem lineSpecOkB_gap8 : lineSpecOkB (Ev.gap 8) = true := by
  simp only [lineSpecOkB, decide_eq_true_eq]
  norm_num

theorem drawNode_specOk (ph usable_w : ℚ) (sw : String → String → ℚ → ℚ) (fontname : String)
    (imgFetch : String → Option (ℕ × ℕ)) (c : Cur) (n : Node) :
    ((drawNode ph usable_w sw fontname imgFetch c n).2).all lineSpecOkB = true := by
  cases n with
  | heading t tag =>
    simp only [drawNode, List.all_append]
    rw [drawTextBlock_all lineSpecOkB _ _ _ _ _ _
      (by intro pg y txt
          simp [lineSpecOkB, decide_eq_true_eq, sizeOfKind, advOfKind])]
    simp [lineSpecOkB_gap6]
  | paragraph t =>
    simp only [drawNode, List.all_append]
    rw [drawTextBlock_all lineSpecOkB _ _ _ _ _ _
      (by intro pg y txt
          simp only [lineSpecOkB, decide_eq_true_eq, sizeOfKind, advOfKind]
          norm_num)]
    simp [lineSpecOkB_gap8]
  | image src cap =>
    simp only [drawNode]
    cases hf : imgFetch src with
    | none => rfl
    | some p =>
      obtain ⟨iw, ih⟩ := p
      simp only []
      by_cases hz : iw = 0
      · rw [if_pos hz]
        rfl
      · rw [if_neg hz]
        by_cases hcap : cap ≠ ""
        · rw [if_pos hcap]
          simp only [List.all_cons, List.all_append]
          rw [drawTextBlock_all lineSpecOkB _ _ _ _ _ _
            (by intro pg y txt
                simp only [lineSpecOkB, decide_eq_true_eq, sizeOfKind, advOfKind]
                norm_num)]
          simp [lineSpecOkB, lineSpecOkB_gap6]
          norm_num
        · rw [if_neg hcap]
          rfl

theorem drawNodes_specOk (ph usable_w : ℚ) (sw : String → String → ℚ → ℚ)
    (fontname : String) (imgFetch : String → Option (ℕ × ℕ)) :
    ∀ (ns : List Node) (c : Cur),
      ((drawNodes ph usable_w sw fontname imgFetch c ns).2).all lineSpecOkB = true := by
  intro ns
  induction ns with
  | nil => intro c; rfl
  | cons n ns ih =>
    intro c
    simp only [drawNodes, List.all_append, ih, Bool.and_true]
    exact drawNode_specOk ph usable_w sw fontname imgFetch c n

/-- Claim C3 (amended): every drawn line uses the specified font size
(title 18, level-1 headings 14, other headings 12, paragraphs 11, captions
and the metadata line 9) and every block gap is 6–8pt, but the per-line
advance is font size + 2 only for heading, paragraph and caption lines:
title lines advance 22pt (18 + 4) and the metadata line advances 16pt
(9 + 7), as recorded in `advOfKind`. -/
theorem c3_amended (pw ph : ℚ) (sw : String → String → ℚ → ℚ) (fontname : String)
    (imgFetch : String → Option (ℕ × ℕ)) (meta : Extracted) (nodes : List Node) :
    ((create_pdf pw ph sw fontname imgFetch meta nodes).2).all lineSpecOkB = true := by
  unfold create_pdf
  simp only [List.all_append, Bool.and_eq_true]
  refine ⟨⟨?_, ?_⟩, ?_⟩
  · by_cases hT : meta.title ≠ ""
    · rw [if_pos hT]
      dsimp only
      rw [List.all_append, Bool.and_eq_true]
      refine ⟨?_, ?_⟩
      · exact drawTextBlock_all lineSpecOkB _ _ _ _ _ _
          (by intro pg y txt; simp [lineSpecOkB, sizeOfKind, advOfKind]) _ _
      · simp [lineSpecOkB_gap6]
    · rw [if_neg hT]
      rfl
  · by_cases hI : (((if meta.author ≠ "" then ["By " ++ meta.author] else []) ++
        (if meta.date ≠ "" then [meta.date] else [])) ++
          (if meta.tags ≠ "" then ["Tags: " ++ meta.tags] else [])) ≠ []
    · rw [if_pos hI]
      dsimp only
      simp only [List.all_cons, List.all_nil, Bool.and_true, Bool.and_eq_true]
      constructor
      · have hPmeta : ∀ pg y t, lineSpecOkB (Ev.line LineKind.metaLine 9 pg margin y 16 t)
            = true := by
          intro pg y t
          simp [lineSpecOkB, sizeOfKind, advOfKind]
        exact hPmeta _ _ _
      · exact lineSpecOkB_gap6
    · rw [if_neg hI]
      rfl
  · exact drawNodes_specOk ph (pw - 2 * margin) sw fontname imgFetch nodes _

set_option maxHeartbeats 1000000 in
/-- Claim C3 (counterexample): rendering a title that wraps onto two lines
("Hi" / "There", each character 1000 units wide on a 100pt page), the two
title lines are drawn at y = 814 and y = 792 — a vertical advance of 22pt,
not the claimed font size + 2 = 20pt. -/
theorem c3_counterexample :
    (create_pdf 100 842 swByLen "H" (fun _ => none) titleOnlyMeta []).2 =
      [Ev.line LineKind.title 18 0 28 814 22 "Hi",
       Ev.line LineKind.title 18 0 28 792 22 "There", Ev.gap 6] ∧
    (814 : ℚ) - 792 ≠ 18 + 2 := by
  constructor
  · norm_num [create_pdf, titleOnlyMeta, drawNodes, drawTextBlock, drawTextLine,
      split_text_to_lines, splitGo, pySplitL, pySplitAcc, pyStripL, ltrimL, rtrimL,
      List.dropWhile, margin, swByLen,
      show "Hi There".data = ['H','i',' ','T','h','e','r','e'] from rfl,
      (by decide : ("Hi There" : String) ≠ ""),
      (by decide : 'H'.isWhitespace = false), (by decide : 'i'.isWhitespace = false),
      (by decide : ' '.isWhitespace = true), (by decide : 'T'.isWhitespace = false),
      (by decide : 'h'.isWhitespace = false), (by decide : 'e'.isWhitespace = false),
      (by decide : 'r'.isWhitespace = false),
      show String.mk ['H', 'i'] = "Hi" from rfl,
      show String.mk ['T', 'h', 'e', 'r', 'e'] = "There" from rfl,
      show String.mk ['H', 'i', ' ', 'T', 'h', 'e', 'r', 'e'] = "Hi There" from rfl,
      show ("Hi" : String).length = 2 from rfl,
      show ("There" : String).length = 5 from rfl,
      show ("Hi There" : String).length = 8 from rfl]
  · norm_num

/-! ## Lemmas about the renderer: image scaling (C7) -/

theorem drawTextBlock_imageOk (u : ℚ) (fI : String → Option (ℕ × ℕ))
    (ph thresh adv : ℚ) (k : LineKind) (sz x : ℚ) :
    ∀ (ts : List String) (c : Cur),
      ∀ e ∈ (drawTextBlock ph thresh adv k sz x c ts).2, imageSpecOk u fI e := by
  intro ts
  induction ts with
  | nil =>
    intro c e he
    simp [drawTextBlock] at he
  | cons t ts ih =>
    intro c e he
    simp only [drawTextBlock] at he
    rcases List.mem_cons.mp he with rfl | hm
    · trivial
    · exact ih _ e hm

theorem drawNode_imageOk (ph usable_w : ℚ) (sw : String → String → ℚ → ℚ)
    (fontname : String) (imgFetch : String → Option (ℕ × ℕ)) (c : Cur) (n : Node) :
    ∀ e ∈ (drawNode ph usable_w sw fontname imgFetch c n).2, imageSpecOk usable_w imgFetch e := by
  cases n with
  | heading t tag =>
    intro e he
    simp only [drawNode] at he
    rw [List.mem_append] at he
    rcases he with he | he
    · exact drawTextBlock_imageOk usable_w imgFetch ph _ _ _ _ _ _ _ e he
    · rcases List.mem_singleton.mp he with rfl
      trivial
  | paragraph t =>
    intro e he
    simp only [drawNode] at he
    rw [List.mem_append] at he
    rcases he with he | he
    · exact drawTextBlock_imageOk usable_w imgFetch ph _ _ _ _ _ _ _ e he
    · rcases List.mem_singleton.mp he with rfl
      trivial
  | image src cap =>
    intro e he
    simp only [drawNode] at he
    cases hf : imgFetch src with
    | none =>
      rw [hf] at he
      simp at he
    | some p =>
      obtain ⟨iw, ih⟩ := p
      simp only [hf] at he
      by_cases hz : iw = 0
      · rw [if_pos hz] at he
        simp at he
      · rw [if_neg hz] at he
        have hiw : ((iw : ℚ)) ≠ 0 := Nat.cast_ne_zero.mpr hz
        have hok : ∀ (pg : ℕ) (xx yy : ℚ), imageSpecOk usable_w imgFetch
            (Ev.image pg xx yy (min usable_w (iw : ℚ))
              ((min usable_w (iw : ℚ)) * ((ih : ℚ) / (iw : ℚ))) src) := by
          intro pg xx yy
          refine ⟨iw, ih, hf, hz, rfl, min_le_right _ _, ?_⟩
          rw [mul_assoc, div_mul_cancel₀ _ hiw]
        by_cases hcap : cap ≠ ""
        · rw [if_pos hcap] at he
          rcases List.mem_cons.mp he with rfl | he2
          · exact hok _ _ _
          · simp only [List.append_eq, List.mem_append, List.mem_singleton] at he2
            rcases he2 with he2 | rfl
            · exact drawTextBlock_imageOk usable_w imgFetch ph _ _ _ _ _ _ _ e he2
            · trivial
        · rw [if_neg hcap] at he
          rcases List.mem_singleton.mp he with rfl
          exact hok _ _ _

theorem drawNodes_imageOk (ph usable_w : ℚ) (sw : String → String → ℚ → ℚ)
    (fontname : String) (imgFetch : String → Option (ℕ × ℕ)) :
    ∀ (ns : List Node) (c : Cur),
      ∀ e ∈ (drawNodes ph usable_w sw fontname imgFetch c ns).2,
        imageSpecOk usable_w imgFetch e := by
  intro ns
  induction ns with
  | nil =>
    intro c e he
    simp [drawNodes] at he
  | cons n ns ih =>
    intro c e he
    simp only [drawNodes] at he
    rw [List.mem_append] at he
    rcases he with he | he
    · exact drawNode_imageOk ph usable_w sw fontname imgFetch c n e he
    · exact ih _ e he

/-- Claim C7: every image drawn by the renderer comes from a successfully
decoded source of pixel size (iw, ih) with iw ≠ 0; its drawn width is
exactly min(usable page width, iw) — never more than iw — and its drawn
height satisfies h·iw = w·ih, i.e. the aspect ratio is preserved exactly
(the model computes in ℚ, so the float tolerance of the claim is 0). -/
theorem c7_image_scaling (pw ph : ℚ) (sw : String → String → ℚ → ℚ) (fontname : String)
    (imgFetch : String → Option (ℕ × ℕ)) (meta : Extracted) (nodes : List Node) :
    ∀ e ∈ (create_pdf pw ph sw fontname imgFetch meta nodes).2,
      imageSpecOk (pw - 2 * margin) imgFetch e := by
  intro e he
  unfold create_pdf at he
  simp only [List.mem_append] at he
  rcases he with (he | he) | he
  · by_cases hT : meta.title ≠ ""
    · rw [if_pos hT] at he
      dsimp only at he
      rw [List.mem_append] at he
      rcases he with he | he
      · exact drawTextBlock_imageOk _ imgFetch ph _ _ _ _ _ _ _ e he
      · rcases List.mem_singleton.mp he with rfl
        trivial
    · rw [if_neg hT] at he
      simp at he
  · by_cases hI : (((if meta.author ≠ "" then ["By " ++ meta.author] else []) ++
        (if meta.date ≠ "" then [meta.date] else [])) ++
          (if meta.tags ≠ "" then ["Tags: " ++ meta.tags] else [])) ≠ []
    · rw [if_pos hI] at he
      dsimp only at he
      rcases List.mem_cons.mp he with rfl | he
      · trivial
      · rcases List.mem_singleton.mp he with rfl
        trivial
    · rw [if_neg hI] at he
      simp at he
  · exact drawNodes_imageOk ph (pw - 2 * margin) sw fontname imgFetch nodes _ e he

set_option maxHeartbeats 1000000 in
/-- The event trace of rendering one 100×50 image on a 200×842 page. -/
theorem oneImageTrace :
    (create_pdf 200 842 (fun _ _ _ => 0) "H" imgFetch100x50 oneImageMeta
      oneImageMeta.nodes).2 = [Ev.image 0 28 764 100 50 "u"] := by
  norm_num [create_pdf, oneImageMeta, imgFetch100x50, drawNodes, drawNode, margin, min_def]

/-- Claim C7 (witness): the concrete 100×50 image on a 200pt-wide page is
drawn 100pt wide (min(144, 100)) and 50pt tall, preserving 100:50. -/
theorem c7_witness :
    imageSpecOk (200 - 2 * margin) imgFetch100x50 (Ev.image 0 28 764 100 50 "u") :=
  c7_image_scaling 200 842 (fun _ _ _ => 0) "H" imgFetch100x50 oneImageMeta
    oneImageMeta.nodes (Ev.image 0 28 764 100 50 "u")
    (by rw [oneImageTrace]; exact List.mem_cons_self _ _)

/-! ## Lemmas about line wrapping (C10) -/

theorem splitGo_cons (sw : List Char → ℚ) (maxw : ℚ) (w : List Char)
    (ws : List (List Char)) (cur : List Char) :
    splitGo sw maxw (w :: ws) cur =
      if sw (pyStripL (cur ++ ' ' :: w)) ≤ maxw then
        splitGo sw maxw ws (pyStripL (cur ++ ' ' :: w))
      else if cur = [] then splitGo sw maxw ws w
      else cur :: splitGo sw maxw ws w := rfl

theorem joinSp_append_single : ∀ (l0 : List (List Char)) (w : List Char), l0 ≠ [] →
    joinSp (l0 ++ [w]) = joinSp l0 ++ ' ' :: w := by
  intro l0
  induction l0 with
  | nil => intro w h; exact absurd rfl h
  | cons a t ih =>
    intro w _
    cases t with
    | nil => rfl
    | cons b t' =>
      show joinSp (a :: ((b :: t') ++ [w])) = (a ++ ' ' :: joinSp (b :: t')) ++ ' ' :: w
      rw [show joinSp (a :: ((b :: t') ++ [w])) = a ++ ' ' :: joinSp ((b :: t') ++ [w]) from rfl]
      rw [ih w (by simp)]
      simp

theorem joinSp_ne_nil {l0 : List (List Char)} (h : ∀ u ∈ l0, IsWord u) (hne : l0 ≠ []) :
    joinSp l0 ≠ [] := by
  cases l0 with
  | nil => exact absurd rfl hne
  | cons a t =>
    have ha : IsWord a := h a (List.mem_cons_self _ _)
    cases t with
    | nil => exact ha.1
    | cons b t' =>
      show a ++ ' ' :: joinSp (b :: t') ≠ []
      simp

theorem rtrimL_append_word (w : List Char) (hw : IsWord w) :
    ∀ x : List Char, rtrimL (x ++ w) = x ++ w := by
  intro x
  induction x with
  | nil =>
    show rtrimL w = w
    exact rtrimL_all_not_ws hw.2
  | cons c x' ih =>
    show rtrimL (c :: (x' ++ w)) = c :: (x' ++ w)
    have hne : x' ++ w ≠ [] := by
      simp [hw.1]
    cases hx : x' ++ w with
    | nil => exact absurd hx hne
    | cons d ds =>
      rw [rtrimL_cons_cons (show rtrimL (d :: ds) = d :: ds from hx ▸ ih)]

theorem pyStripL_join (l0 : List (List Char)) (w : List Char)
    (hl0 : ∀ u ∈ l0, IsWord u) (hw : IsWord w) :
    pyStripL (joinSp l0 ++ ' ' :: w) = joinSp (l0 ++ [w]) := by
  cases l0 with
  | nil =>
    show rtrimL (ltrimL (' ' :: w)) = w
    rw [ltrimL_cons_of_ws (by decide), ltrimL_all_not_ws hw.2, rtrimL_all_not_ws hw.2]
  | cons a t =>
    have ha : IsWord a := hl0 a (List.mem_cons_self _ _)
    rw [joinSp_append_single (a :: t) w (by simp)]
    obtain ⟨c, a', rfl⟩ : ∃ c a', a = c :: a' := by
      cases a with
      | nil => exact absurd rfl ha.1
      | cons c a' => exact ⟨c, a', rfl⟩
    have hchead : c.isWhitespace = false := ha.2 c (List.mem_cons_self _ _)
    obtain ⟨X, hX⟩ : ∃ X, joinSp ((c :: a') :: t) = c :: (a' ++ X) := by
      cases t with
      | nil => exact ⟨[], by simp [joinSp]⟩
      | cons b t' => exact ⟨' ' :: joinSp (b :: t'), rfl⟩
    rw [hX]
    show rtrimL (ltrimL (c :: ((a' ++ X) ++ ' ' :: w))) = _
    rw [ltrimL_cons_of_not_ws hchead]
    rw [show c :: ((a' ++ X) ++ ' ' :: w) = (c :: ((a' ++ X) ++ [' '])) ++ w from by simp]
    rw [rtrimL_append_word w hw]
    simp

theorem pySplitAcc_nonws : ∀ (w acc : List Char), (∀ c ∈ w, c.isWhitespace = false) →
    pySplitAcc w acc = if acc.reverse ++ w = [] then [] else [acc.reverse ++ w] := by
  intro w
  induction w with
  | nil =>
    intro acc _
    show (if acc = [] then [] else [acc.reverse]) = _
    by_cases ha : acc = []
    · subst ha
      simp
    · rw [if_neg ha, List.append_nil,
        if_neg (by simpa [List.reverse_eq_nil_iff] using ha)]
  | cons c w' ih =>
    intro acc h
    have hc : c.isWhitespace = false := h c (List.mem_cons_self _ _)
    rw [show pySplitAcc (c :: w') acc = pySplitAcc w' (c :: acc) from by
      simp [pySplitAcc, hc]]
    rw [ih (c :: acc) (fun d hd => h d (List.mem_cons_of_mem _ hd))]
    rw [if_neg (by simp), if_neg (by simp)]
    simp

theorem pySplitAcc_word_space : ∀ (w : List Char) (rest acc : List Char),
    (∀ c ∈ w, c.isWhitespace = false) → acc.reverse ++ w ≠ [] →
    pySplitAcc (w ++ ' ' :: rest) acc = (acc.reverse ++ w) :: pySplitAcc rest [] := by
  intro w
  induction w with
  | nil =>
    intro rest acc _ hne
    have ha : acc ≠ [] := by
      intro h
      subst h
      simp at hne
    show pySplitAcc (' ' :: rest) acc = _
    rw [show pySplitAcc (' ' :: rest) acc =
        (if acc = [] then pySplitAcc rest [] else acc.reverse :: pySplitAcc rest []) from by
      simp [pySplitAcc]]
    rw [if_neg ha, List.append_nil]
  | cons c w' ih =>
    intro rest acc h hne
    have hc : c.isWhitespace = false := h c (List.mem_cons_self _ _)
    show pySplitAcc (c :: (w' ++ ' ' :: rest)) acc = _
    rw [show pySplitAcc (c :: (w' ++ ' ' :: rest)) acc =
        pySplitAcc (w' ++ ' ' :: rest) (c :: acc) from by simp [pySplitAcc, hc]]
    rw [ih rest (c :: acc) (fun d hd => h d (List.mem_cons_of_mem _ hd)) (by simp)]
    simp

theorem pySplitAcc_words : ∀ (l acc : List Char), (∀ c ∈ acc, c.isWhitespace = false) →
    ∀ w ∈ pySplitAcc l acc, IsWord w := by
  intro l
  induction l with
  | nil =>
    intro acc hacc w hw
    by_cases ha : acc = []
    · subst ha
      simp [pySplitAcc] at hw
    · rw [show pySplitAcc [] acc = [acc.reverse] from by simp [pySplitAcc, ha]] at hw
      rcases List.mem_singleton.mp hw with rfl
      refine ⟨by simpa [List.reverse_eq_nil_iff] using ha, ?_⟩
      intro c hc
      exact hacc c (List.mem_reverse.mp hc)
  | cons c cs ih =>
    intro acc hacc w hw
    cases hc : c.isWhitespace with
    | true =>
      by_cases ha : acc = []
      · subst ha
        rw [show pySplitAcc (c :: cs) [] = pySplitAcc cs [] from by simp [pySplitAcc, hc]] at hw
        exact ih [] (by simp) w hw
      · rw [show pySplitAcc (c :: cs) acc = acc.reverse :: pySplitAcc cs [] from by
          simp [pySplitAcc, hc, ha]] at hw
        rcases List.mem_cons.mp hw with rfl | hw2
        · refine ⟨by simpa [List.reverse_eq_nil_iff] using ha, ?_⟩
          intro d hd
          exact hacc d (List.mem_reverse.mp hd)
        · exact ih [] (by simp) w hw2
    | false =>
      rw [show pySplitAcc (c :: cs) acc = pySplitAcc cs (c :: acc) from by
        simp [pySplitAcc, hc]] at hw
      refine ih (c :: acc) ?_ w hw
      intro d hd
      rcases List.mem_cons.mp hd with rfl | hd2
      · exact hc
      · exact hacc d hd2

theorem pySplitL_words (l : List Char) : ∀ w ∈ pySplitL l, IsWord w :=
  pySplitAcc_words l [] (by simp)

theorem pySplitL_joinSp : ∀ (l0 : List (List Char)), (∀ u ∈ l0, IsWord u) →
    pySplitL (joinSp l0) = l0 := by
  intro l0
  induction l0 with
  | nil => intro _; rfl
  | cons a t ih =>
    intro h
    have ha : IsWord a := h a (List.mem_cons_self _ _)
    cases t with
    | nil =>
      show pySplitAcc a [] = [a]
      rw [pySplitAcc_nonws a [] ha.2]
      rw [if_neg (by simpa using ha.1)]
      rfl
    | cons b t' =>
      show pySplitAcc (a ++ ' ' :: joinSp (b :: t')) [] = a :: b :: t'
      rw [pySplitAcc_word_space a (joinSp (b :: t')) [] ha.2 (by simpa using ha.1)]
      rw [show pySplitAcc (joinSp (b :: t')) [] = pySplitL (joinSp (b :: t')) from rfl]
      rw [ih (fun u hu => h u (List.mem_cons_of_mem _ hu))]
      simp

theorem splitGo_words_flatten (sw : List Char → ℚ) (maxw : ℚ) :
    ∀ (ws l0 : List (List Char)), (∀ u ∈ ws, IsWord u) → (∀ u ∈ l0, IsWord u) →
      ((splitGo sw maxw ws (joinSp l0)).map pySplitL).flatten = l0 ++ ws := by
  intro ws
  induction ws with
  | nil =>
    intro l0 _ hl0
    show ((if joinSp l0 = [] then [] else [joinSp l0]).map pySplitL).flatten = l0 ++ []
    by_cases h : l0 = []
    · subst h
      rw [if_pos (show joinSp ([] : List (List Char)) = [] from rfl)]
      rfl
    · rw [if_neg (joinSp_ne_nil hl0 h)]
      simp [pySplitL_joinSp l0 hl0]
  | cons w ws' ih =>
    intro l0 hws hl0
    have hw : IsWord w := hws w (List.mem_cons_self _ _)
    have hws' : ∀ u ∈ ws', IsWord u := fun u hu => hws u (List.mem_cons_of_mem _ hu)
    have hl0w : ∀ u ∈ l0 ++ [w], IsWord u := by
      intro u hu
      rcases List.mem_append.mp hu with h | h
      · exact hl0 u h
      · rcases List.mem_singleton.mp h with rfl
        exact hw
    have hwsingle : ∀ u ∈ [w], IsWord u := by
      intro u hu
      rcases List.mem_singleton.mp hu with rfl
      exact hw
    rw [splitGo_cons, pyStripL_join l0 w hl0 hw]
    by_cases hfit : sw (joinSp (l0 ++ [w])) ≤ maxw
    · rw [if_pos hfit]
      rw [ih (l0 ++ [w]) hws' hl0w]
      simp
    · rw [if_neg hfit]
      by_cases hnil : joinSp l0 = []
      · have hl0nil : l0 = [] := by
          by_contra hne
          exact joinSp_ne_nil hl0 hne hnil
        subst hl0nil
        rw [if_pos hnil]
        have := ih [w] hws' hwsingle
        simpa using this
      · rw [if_neg hnil]
        rw [List.map_cons, List.flatten_cons]
        rw [pySplitL_joinSp l0 hl0]
        have := ih [w] hws' hwsingle
        rw [show splitGo sw maxw ws' w = splitGo sw maxw ws' (joinSp [w]) from rfl, this]
        simp

theorem splitGo_no_nil (sw : List Char → ℚ) (maxw : ℚ) :
    ∀ (ws : List (List Char)) (cur : List Char), ∀ l ∈ splitGo sw maxw ws cur, l ≠ [] := by
  intro ws
  induction ws with
  | nil =>
    intro cur l hl
    by_cases h : cur = []
    · subst h
      simp [splitGo] at hl
    · rw [show splitGo sw maxw [] cur = [cur] from by simp [splitGo, h]] at hl
      rcases List.mem_singleton.mp hl with rfl
      exact h
  | cons w ws' ih =>
    intro cur l hl
    rw [splitGo_cons] at hl
    by_cases hfit : sw (pyStripL (cur ++ ' ' :: w)) ≤ maxw
    · rw [if_pos hfit] at hl
      exact ih _ l hl
    · rw [if_neg hfit] at hl
      by_cases hc : cur = []
      · rw [if_pos hc] at hl
        exact ih _ l hl
      · rw [if_neg hc] at hl
        rcases List.mem_cons.mp hl with rfl | hl2
        · exact hc
        · exact ih _ l hl2

theorem sw_join_ge (sw : List Char → ℚ)
    (hadd : ∀ a b, sw (a ++ b) = sw a + sw b) (hnn : ∀ a, 0 ≤ sw a)
    (l0 : List (List Char)) (w : List Char) :
    sw w ≤ sw (joinSp (l0 ++ [w])) ∧ sw (joinSp l0) ≤ sw (joinSp (l0 ++ [w])) := by
  have h0 : sw [] = 0 := by
    have h := hadd [] []
    simp at h
    linarith
  cases l0 with
  | nil =>
    constructor
    · exact le_refl _
    · show sw (joinSp []) ≤ sw (joinSp [w])
      rw [show joinSp ([] : List (List Char)) = [] from rfl, h0]
      exact hnn _
  | cons a t =>
    rw [joinSp_append_single (a :: t) w (by simp)]
    rw [show joinSp (a :: t) ++ ' ' :: w = joinSp (a :: t) ++ ([' '] ++ w) from rfl]
    rw [hadd, hadd]
    have h1 := hnn (joinSp (a :: t))
    have h2 := hnn [' ']
    have h3 := hnn w
    constructor
    · linarith
    · linarith

theorem splitGo_stuck (sw : List Char → ℚ) (maxw : ℚ)
    (hadd : ∀ a b, sw (a ++ b) = sw a + sw b) (hnn : ∀ a, 0 ≤ sw a) :
    ∀ (ws l0 : List (List Char)), (∀ u ∈ l0, IsWord u) → (∀ u ∈ ws, IsWord u) →
      l0 ≠ [] → maxw < sw (joinSp l0) → joinSp l0 ∈ splitGo sw maxw ws (joinSp l0) := by
  intro ws
  induction ws with
  | nil =>
    intro l0 hl0 _ hne _
    rw [show splitGo sw maxw [] (joinSp l0) = [joinSp l0] from by
      simp [splitGo, joinSp_ne_nil hl0 hne]]
    exact List.mem_singleton.mpr rfl
  | cons w ws' ih =>
    intro l0 hl0 hws hne hover
    have hw : IsWord w := hws w (List.mem_cons_self _ _)
    have hws' : ∀ u ∈ ws', IsWord u := fun u hu => hws u (List.mem_cons_of_mem _ hu)
    rw [splitGo_cons, pyStripL_join l0 w hl0 hw]
    have hge := (sw_join_ge sw hadd hnn l0 w).2
    rw [if_neg (not_le.mpr (lt_of_lt_of_le hover hge))]
    rw [if_neg (joinSp_ne_nil hl0 hne)]
    exact List.mem_cons_self _ _

theorem splitGo_oversized (sw : List Char → ℚ) (maxw : ℚ)
    (hadd : ∀ a b, sw (a ++ b) = sw a + sw b) (hnn : ∀ a, 0 ≤ sw a) :
    ∀ (ws l0 : List (List Char)) (w : List Char), (∀ u ∈ l0, IsWord u) →
      (∀ u ∈ ws, IsWord u) → w ∈ ws → maxw < sw w →
      w ∈ splitGo sw maxw ws (joinSp l0) := by
  intro ws
  induction ws with
  | nil =>
    intro l0 w _ _ hmem _
    simp at hmem
  | cons a ws' ih =>
    intro l0 w hl0 hws hmem hover
    have ha : IsWord a := hws a (List.mem_cons_self _ _)
    have hws' : ∀ u ∈ ws', IsWord u := fun u hu => hws u (List.mem_cons_of_mem _ hu)
    have hl0a : ∀ u ∈ l0 ++ [a], IsWord u := by
      intro u hu
      rcases List.mem_append.mp hu with h | h
      · exact hl0 u h
      · rcases List.mem_singleton.mp h with rfl
        exact ha
    have hasingle : ∀ u ∈ [a], IsWord u := by
      intro u hu
      rcases List.mem_singleton.mp hu with rfl
      exact ha
    rw [splitGo_cons, pyStripL_join l0 a hl0 ha]
    rcases List.mem_cons.mp hmem with rfl | hmem'
    · have hge := (sw_join_ge sw hadd hnn l0 w).1
      rw [if_neg (not_le.mpr (lt_of_lt_of_le hover hge))]
      have hwsingle : ∀ u ∈ [w], IsWord u := by
        intro u hu
        rcases List.mem_singleton.mp hu with rfl
        exact ha
      have hstuck : w ∈ splitGo sw maxw ws' w :=
        splitGo_stuck sw maxw hadd hnn ws' [w] hwsingle hws' (by simp) hover
      by_cases hnil : joinSp l0 = []
      · rw [if_pos hnil]
        exact hstuck
      · rw [if_neg hnil]
        exact List.mem_cons_of_mem _ hstuck
    · by_cases hfit : sw (joinSp (l0 ++ [a])) ≤ maxw
      · rw [if_pos hfit]
        exact ih (l0 ++ [a]) w hl0a hws' hmem' hover
      · rw [if_neg hfit]
        have htail : w ∈ splitGo sw maxw ws' (joinSp [a]) :=
          ih [a] w hasingle hws' hmem' hover
        by_cases hnil : joinSp l0 = []
        · rw [if_pos hnil]
          exact htail
        · rw [if_neg hnil]
          exact List.mem_cons_of_mem _ htail

/-- Claim C10: with reportlab's width model (non-negative per-character
widths scaled by a non-negative font size), the greedy wrapper (a) loses,
duplicates and reorders no word — re-splitting its lines yields exactly
the whitespace-split word list of the input, (b) returns no empty line,
and (c) still emits a word wider than the maximum width as its own
(overflowing) line. -/
theorem c10_split_lines (cw : Char → ℚ) (fontname text : String) (fontsize maxw : ℚ)
    (hcw : ∀ c, 0 ≤ cw c) (hfs : 0 ≤ fontsize) (hmax : 0 < maxw) :
    (((split_text_to_lines (stringWidthModel cw) text fontname fontsize maxw).map
        pySplitS).flatten = pySplitS text) ∧
    (∀ l ∈ split_text_to_lines (stringWidthModel cw) text fontname fontsize maxw, l ≠ "") ∧
    (∀ w ∈ pySplitS text, maxw < stringWidthModel cw w fontname fontsize →
      w ∈ split_text_to_lines (stringWidthModel cw) text fontname fontsize maxw) := by
  have hadd : ∀ a b : List Char,
      (fun l => stringWidthModel cw (String.mk l) fontname fontsize) (a ++ b) =
        (fun l => stringWidthModel cw (String.mk l) fontname fontsize) a +
        (fun l => stringWidthModel cw (String.mk l) fontname fontsize) b := by
    intro a b
    show ((a ++ b).map cw).sum * fontsize / 1000 =
      (a.map cw).sum * fontsize / 1000 + (b.map cw).sum * fontsize / 1000
    rw [List.map_append, List.sum_append, add_mul, add_div]
  have hnn : ∀ a : List Char,
      0 ≤ (fun l => stringWidthModel cw (String.mk l) fontname fontsize) a := by
    intro a
    show 0 ≤ (a.map cw).sum * fontsize / 1000
    refine div_nonneg (mul_nonneg (List.sum_nonneg ?_) hfs) (by norm_num)
    intro x hx
    rcases List.mem_map.mp hx with ⟨c, _, rfl⟩
    exact hcw c
  have hWS : ∀ u ∈ pySplitL text.data, IsWord u := pySplitL_words _
  have hempty : ∀ u ∈ ([] : List (List Char)), IsWord u := by simp
  refine ⟨?_, ?_, ?_⟩
  · show ((((splitGo (fun l => stringWidthModel cw (String.mk l) fontname fontsize) maxw
        (pySplitL text.data) [])).map String.mk).map pySplitS).flatten = pySplitS text
    rw [List.map_map]
    rw [show pySplitS ∘ String.mk = fun l => (pySplitL l).map String.mk from rfl]
    rw [show (splitGo (fun l => stringWidthModel cw (String.mk l) fontname fontsize) maxw
          (pySplitL text.data) []).map (fun l => (pySplitL l).map String.mk) =
        ((splitGo (fun l => stringWidthModel cw (String.mk l) fontname fontsize) maxw
          (pySplitL text.data) []).map pySplitL).map (List.map String.mk) from by
      rw [List.map_map]
      rfl]
    rw [← List.map_flatten]
    have h1 : ((splitGo (fun l => stringWidthModel cw (String.mk l) fontname fontsize) maxw
          (pySplitL text.data) []).map pySplitL).flatten = [] ++ pySplitL text.data :=
      splitGo_words_flatten _ maxw (pySplitL text.data) [] hWS hempty
    rw [h1]
    rfl
  · intro l hl
    rcases List.mem_map.mp hl with ⟨r, hr, rfl⟩
    intro hcon
    have hr0 : r = [] := congrArg String.data hcon
    exact splitGo_no_nil _ _ _ _ r hr hr0
  · intro w hw hover
    rcases List.mem_map.mp hw with ⟨wl, hwl, rfl⟩
    exact List.mem_map_of_mem _
      (splitGo_oversized _ maxw hadd hnn (pySplitL text.data) [] wl hempty hWS hwl hover)

/-- Claim C10 (witness): wrapping "a verylongword" with every character
1000 units wide at 11pt in a 50-unit column preserves the word list, and
the overflowing word "verylongword" (width 132 > 50) appears as a line of
its own. -/
theorem c10_witness :
    ((split_text_to_lines (stringWidthModel (fun _ => 1000)) "a verylongword" "H" 11 50).map
        pySplitS).flatten = pySplitS "a verylongword" ∧
    "verylongword" ∈
      split_text_to_lines (stringWidthModel (fun _ => 1000)) "a verylongword" "H" 11 50 := by
  constructor
  · exact (c10_split_lines (fun _ => 1000) "H" "a verylongword" 11 50
      (fun c => by norm_num) (by norm_num) (by norm_num)).1
  · refine (c10_split_lines (fun _ => 1000) "H" "a verylongword" 11 50
      (fun c => by norm_num) (by norm_num) (by norm_num)).2.2 "verylongword" ?_ ?_
    · decide
    · norm_num [stringWidthModel,
        show ("verylongword" : String).data =
          ['v', 'e', 'r', 'y', 'l', 'o', 'n', 'g', 'w', 'o', 'r', 'd'] from rfl]
